import Mathlib

/-!
Verification development for the keyboard-navigation core of the Blockly
fork: the `LineCursor` traversal engine (`src/core/keyboard_nav/line_cursor.ts`)
and the default keyboard-shortcut preconditions (the `ShortcutItems` module).

Nodes of the navigation graph are represented by natural-number identifiers.
A `World` bundles the external Node Graph Accessor (first child, next and
previous sibling, parent), together with the block-structure queries the
cursor consults (connections, inputs, parents, disposal flags).  The
traversal functions are embedded with explicit fuel: a `none` result of an
`Option`-valued runner means the fuel was exhausted, which is how the
divergence of the corresponding JavaScript loop is made visible.
-/

/-- Connection kinds, after `ConnectionType` in the source. -/
inductive ConnType
  | inputValue
  | outputValue
  | nextStatement
  | previousStatement
deriving DecidableEq, Repr

/-- The kind of a focusable node: block, rendered workspace comment,
rendered connection (with its connection type), the workspace root,
or something else (fields, icons, ...). -/
inductive NodeKind
  | block
  | comment
  | connection (ct : ConnType)
  | workspace
  | other
deriving DecidableEq, Repr

/-- Direction of travel, after the `NavigationDirection` enum. -/
inductive NavigationDirection
  | NEXT
  | PREVIOUS
  | IN
  | OUT
deriving DecidableEq, Repr

/-- A static snapshot of the workspace: the navigator (Node Graph Accessor)
plus every block-structure query used by `LineCursor`.  Node identifiers,
input identifiers and block identifiers all live in `Nat`. -/
structure World where
  /-- Kind of each node. -/
  kind : Nat → NodeKind
  /-- Navigator: first child of a node. -/
  firstChild : Nat → Option Nat
  /-- Navigator: next sibling of a node. -/
  nextSibling : Nat → Option Nat
  /-- Navigator: previous sibling of a node. -/
  prevSibling : Nat → Option Nat
  /-- Navigator: parent of a node. -/
  navParent : Nat → Option Nat
  /-- The node id of the workspace root itself. -/
  ws : Nat
  /-- A block's output connection, if any. -/
  outputConn : Nat → Option Nat
  /-- A block's previous connection, if any. -/
  prevConn : Nat → Option Nat
  /-- A block's next connection, if any. -/
  nextConn : Nat → Option Nat
  /-- A connection's target connection (`Connection.targetConnection`). -/
  targetConnection : Nat → Option Nat
  /-- A connection's source block (`Connection.getSourceBlock`). -/
  sourceBlock : Nat → Nat
  /-- A connection's parent input (`Connection.getParentInput`). -/
  parentInput : Nat → Option Nat
  /-- An input's owning block (`Input.getSourceBlock`). -/
  inputOwner : Nat → Nat
  /-- A block's input list (`Block.inputList`), as input ids. -/
  inputList : Nat → List Nat
  /-- A block's number of statement inputs (`Block.statementInputCount`). -/
  statementInputCount : Nat → Nat
  /-- Whether a block renders its inputs inline (`Block.getInputsInline`). -/
  inputsInline : Nat → Bool
  /-- A block's parent block (`Block.getParent`). -/
  blockParent : Nat → Option Nat
  /-- Whether a block has been disposed (`Block.disposed`). -/
  disposed : Nat → Bool

/-- The cursor-relevant mutable state: the focused node held by the external
focus manager (the single source of truth for the current position), the
`navigationLoops` flag and the pending-deletion `potentialNodes` list. -/
structure Cursor where
  focused : Option Nat
  navigationLoops : Bool
  potentialNodes : Option (List Nat)
deriving DecidableEq, Repr

/-- Evaluation of `candidate.outputConnection?.targetBlock()`: the block a block's output
connection is plugged into, if any. -/
def outputTargetBlock (w : World) (b : Nat) : Option Nat :=
  (w.outputConn b).bind fun oc => (w.targetConnection oc).map w.sourceBlock

/-- Evaluation of `candidate.outputConnection?.targetConnection`. -/
def outputTargetConnection (w : World) (b : Nat) : Option Nat :=
  (w.outputConn b).bind w.targetConnection

/-- Evaluation of `block.getNextBlock()`: the block connected to this block's next
connection, i.e. the source block of the next connection's target. -/
def getNextBlock (w : World) (b : Nat) : Option Nat :=
  ((w.nextConn b).bind w.targetConnection).map w.sourceBlock

/-- Modelled from the spec: `getSourceBlockFromNode` lives on the cursor's
base class `Marker`, whose source is not part of this corpus.  Per the spec
it returns the owning block of a node, when it has one: the block itself for
a block, the connection's source block for a connection, and nothing for
comments, the workspace, or other nodes. -/
def getSourceBlockFromNode (w : World) (n : Nat) : Option Nat :=
  match w.kind n with
  | NodeKind.block => some n
  | NodeKind.connection _ => some (w.sourceBlock n)
  | _ => none

/-- JavaScript strict equality between two possibly absent heap objects:
`a === b` holds only when both are present and are the same object;
`undefined !== null`, and distinct objects are never identical. -/
def strictSame : Option Nat → Option Nat → Bool
  | some a, some b => a == b
  | _, _ => false

/-- Embeds `LineCursor.getParents`: the chain of parent blocks of a block,
collected by following `getParent`.  The walk is fuel-bounded; the source's
`while` loop would not terminate on a cyclic parent chain. -/
def getParents (w : World) : Nat → Nat → List Nat
  | 0, _ => []
  | fuel + 1, b =>
    match w.blockParent b with
    | none => []
    | some p => p :: getParents w fuel p

/-- Embeds `LineCursor.getValidationFunction`, with the returned closure applied to
the candidate.  `curNode` is the value `this.getCurNode()` yields while the
closure runs (the focused node, unchanged during a traversal), and `fuel`
bounds the parent-chain walks of `getParents`. -/
def getValidationFunction (w : World) (fuel : Nat) (direction : NavigationDirection)
    (curNode : Option Nat) (candidate : Option Nat) : Bool :=
  match direction with
  | NavigationDirection.IN | NavigationDirection.OUT => true
  | _ =>
    if (match candidate with
        | none => false
        | some c =>
          (decide (w.kind c = NodeKind.block) && (outputTargetBlock w c).isNone) ||
          decide (w.kind c = NodeKind.comment) ||
          decide (w.kind c = NodeKind.connection ConnType.nextStatement) ||
          (decide (w.kind c = NodeKind.connection ConnType.inputValue) &&
            !(w.statementInputCount (w.sourceBlock c) == 0) &&
            !strictSame ((w.inputList (w.sourceBlock c)).head?) (w.parentInput c)))
    then true
    else
      let prevReject : Bool :=
        match direction with
        | NavigationDirection.PREVIOUS =>
          (match curNode with
           | some cn =>
             decide (w.kind cn = NodeKind.connection ConnType.nextStatement) &&
             (w.parentInput cn).isNone &&
             !(candidate == some (w.sourceBlock cn))
           | none => false) ||
          (match candidate with
           | some c =>
             decide (w.kind c = NodeKind.block) &&
             (match outputTargetConnection w c with
              | some tc =>
                (match w.parentInput tc with
                 | none => true
                 | some i =>
                   (w.statementInputCount (w.inputOwner i) == 0) ||
                   strictSame ((w.inputList (w.inputOwner i)).head?) (some i))
              | none => false)
           | none => false)
        | _ => false
      if prevReject then false
      else
        match candidate, curNode.bind (getSourceBlockFromNode w) with
        | some c, some cb =>
          if decide (w.kind c = NodeKind.block) then
            if ((outputTargetBlock w c).map w.inputsInline).getD false then false
            else
              let candidateParents := getParents w fuel c
              if curNode == some cb && candidateParents.contains cb then false
              else
                let currentParents := getParents w fuel cb
                let sharedParents := currentParents.filter (fun b => candidateParents.contains b)
                sharedParents.isEmpty || sharedParents.any (fun b => !w.inputsInline b)
          else false
        | _, _ => false

/-- The `while (target && !newNode)` parent-climbing loop inside
`getNextNodeImpl`: starting from `target`, repeatedly take the parent and
try its next sibling; stop with no result when a node has no parent.  The
fuel counts loop iterations; a `none` result means the loop ran out of fuel
(on a cyclic parent chain the JavaScript loop never exits). -/
def climbParents (w : World) : Nat → Nat → Option (Option Nat)
  | 0, _ => none
  | f + 1, target =>
    match w.navParent target with
    | none => some none
    | some p =>
      match w.nextSibling p with
      | some s => some (some s)
      | none => climbParents w f p

/-- Embeds `LineCursor.getNextNodeImpl`.  Here `lf` is the fuel given to each run of the
parent-climbing loop; the final `Nat` fuel bounds the visited-set-guarded
self-recursion.  `some r` is the JavaScript return value (`r = none` is a
`null` return); `none` means some fuel ran out. -/
def getNextNodeImpl (w : World) (isValid : Option Nat → Bool) (lf : Nat) :
    Nat → Option Nat → Finset Nat → Option (Option Nat)
  | _, none, _ => some none
  | 0, some _, _ => none
  | rf + 1, some n, visitedNodes =>
    if n ∈ visitedNodes then some none
    else
      let step : Option (Option Nat) :=
        match w.firstChild n with
        | some c => some (some c)
        | none =>
          match w.nextSibling n with
          | some s => some (some s)
          | none => climbParents w lf n
      match step with
      | none => none
      | some newNode =>
        if isValid newNode then some newNode
        else
          match newNode with
          | some nn => getNextNodeImpl w isValid lf rf (some nn) (insert n visitedNodes)
          | none => some none

/-- The sibling-advancing `for` loop inside `getRightMostChild`: walk the
next-sibling chain from `cur`, stopping before `stop` or at the last
sibling.  A `none` result means the loop ran out of fuel (the JavaScript
loop never exits on a sibling cycle avoiding `stop`). -/
def rightMostSiblings (w : World) (stop : Nat) : Nat → Nat → Option Nat
  | 0, _ => none
  | f + 1, cur =>
    match w.nextSibling cur with
    | none => some cur
    | some s => if s = stop then some cur else rightMostSiblings w stop f s

/-- Embeds `LineCursor.getRightMostChild`, fuel-bounded: `sf` is the fuel for each
sibling walk, the `Nat` fuel bounds the descent through first children. -/
def getRightMostChild (w : World) (stop : Nat) (sf : Nat) :
    Nat → Option Nat → Option (Option Nat)
  | _, none => some none
  | 0, some _ => none
  | rf + 1, some n =>
    match w.firstChild n with
    | none => some (some n)
    | some c =>
      if c = stop then some (some n)
      else
        match rightMostSiblings w stop sf c with
        | none => none
        | some last => getRightMostChild w stop sf rf (some last)

/-- Embeds `LineCursor.getPreviousNodeImpl`, fuel-bounded like `getNextNodeImpl`;
`lf` is handed to the rightmost-child computation. -/
def getPreviousNodeImpl (w : World) (isValid : Option Nat → Bool) (lf : Nat) :
    Nat → Option Nat → Finset Nat → Option (Option Nat)
  | _, none, _ => some none
  | 0, some _, _ => none
  | rf + 1, some n, visitedNodes =>
    if n ∈ visitedNodes then some none
    else
      let rmc : Option (Option Nat) :=
        match w.prevSibling n with
        | none => some none
        | some p => getRightMostChild w n lf lf (some p)
      match rmc with
      | none => none
      | some r =>
        let newNode : Option Nat :=
          match r with
          | some x => some x
          | none => w.navParent n
        if isValid newNode then some newNode
        else
          match newNode with
          | some nn => getPreviousNodeImpl w isValid lf rf (some nn) (insert n visitedNodes)
          | none => some none

/-- Embeds `LineCursor.getFirstNode`: the navigator's first child of the workspace. -/
def getFirstNode (w : World) : Option Nat :=
  w.firstChild w.ws

/-- Embeds `LineCursor.getPreviousNode`: saves `navigationLoops`, sets it to the
`loop` argument, runs the backward traversal (skipped when not looping and
the node is already the first node), restores the flag, and returns the
result paired with the final cursor state.  `none` means a loop inside the
traversal ran out of fuel. -/
def getPreviousNode (w : World) (fuel : Nat) (s : Cursor) (node : Option Nat)
    (isValid : Option Nat → Bool) (loop : Bool) : Option (Option Nat × Cursor) :=
  let originalLoop := s.navigationLoops
  let s1 : Cursor := { s with navigationLoops := loop }
  let res : Option (Option Nat) :=
    match node with
    | none => some none
    | some x =>
      if !loop && getFirstNode w == some x then some none
      else getPreviousNodeImpl w isValid fuel fuel (some x) ∅
  match res with
  | none => none
  | some r => some (r, { s1 with navigationLoops := originalLoop })

/-- Embeds `LineCursor.getLastNode`: one backward traversal step with looping
enabled from the first node, under the always-true predicate. -/
def getLastNode (w : World) (fuel : Nat) (s : Cursor) : Option (Option Nat × Cursor) :=
  getPreviousNode w fuel s (getFirstNode w) (fun _ => true) true

/-- Embeds `LineCursor.getNextNode`: saves `navigationLoops`, sets it to `loop`,
computes the forward traversal (`getLastNode` is consulted only when not
looping, mirroring the short-circuit in the source), restores the flag. -/
def getNextNode (w : World) (fuel : Nat) (s : Cursor) (node : Option Nat)
    (isValid : Option Nat → Bool) (loop : Bool) : Option (Option Nat × Cursor) :=
  let originalLoop := s.navigationLoops
  let s1 : Cursor := { s with navigationLoops := loop }
  let step : Option (Option Nat × Cursor) :=
    match node with
    | none => some (none, s1)
    | some x =>
      if loop then
        (getNextNodeImpl w isValid fuel fuel (some x) ∅).map (fun r => (r, s1))
      else
        match getLastNode w fuel s1 with
        | none => none
        | some (last, s2) =>
          if last == some x then some (none, s2)
          else (getNextNodeImpl w isValid fuel fuel (some x) ∅).map (fun r => (r, s2))
  match step with
  | none => none
  | some (r, s2) => some (r, { s2 with navigationLoops := originalLoop })

/-- Embeds `LineCursor.setCurNode`: focuses the new node via the focus manager
(the nesting-depth audio cue is feedback only and is not modelled). -/
def setCurNode (s : Cursor) (n : Nat) : Cursor :=
  { s with focused := some n }

/-- Embeds `LineCursor.next()`. -/
def cursorNext (w : World) (fuel : Nat) (s : Cursor) : Option (Option Nat × Cursor) :=
  match s.focused with
  | none => some (none, s)
  | some cur =>
    match getNextNode w fuel s (some cur)
        (getValidationFunction w fuel NavigationDirection.NEXT (some cur))
        s.navigationLoops with
    | none => none
    | some (newNode, s1) =>
      match newNode with
      | some nn => some (some nn, setCurNode s1 nn)
      | none => some (none, s1)

/-- Embeds `LineCursor.in()`. -/
def cursorIn (w : World) (fuel : Nat) (s : Cursor) : Option (Option Nat × Cursor) :=
  match s.focused with
  | none => some (none, s)
  | some cur =>
    match getNextNode w fuel s (some cur)
        (getValidationFunction w fuel NavigationDirection.IN (some cur))
        s.navigationLoops with
    | none => none
    | some (newNode, s1) =>
      match newNode with
      | some nn => some (some nn, setCurNode s1 nn)
      | none => some (none, s1)

/-- Embeds `LineCursor.prev()`. -/
def cursorPrev (w : World) (fuel : Nat) (s : Cursor) : Option (Option Nat × Cursor) :=
  match s.focused with
  | none => some (none, s)
  | some cur =>
    match getPreviousNode w fuel s (some cur)
        (getValidationFunction w fuel NavigationDirection.PREVIOUS (some cur))
        s.navigationLoops with
    | none => none
    | some (newNode, s1) =>
      match newNode with
      | some nn => some (some nn, setCurNode s1 nn)
      | none => some (none, s1)

/-- Embeds `LineCursor.out()`. -/
def cursorOut (w : World) (fuel : Nat) (s : Cursor) : Option (Option Nat × Cursor) :=
  match s.focused with
  | none => some (none, s)
  | some cur =>
    match getPreviousNode w fuel s (some cur)
        (getValidationFunction w fuel NavigationDirection.OUT (some cur))
        s.navigationLoops with
    | none => none
    | some (newNode, s1) =>
      match newNode with
      | some nn => some (some nn, setCurNode s1 nn)
      | none => some (none, s1)

/-- Embeds `LineCursor.atEndOfLine()`. -/
def atEndOfLine (w : World) (fuel : Nat) (s : Cursor) : Option (Bool × Cursor) :=
  match s.focused with
  | none => some (false, s)
  | some cur =>
    match getNextNode w fuel s (some cur)
        (getValidationFunction w fuel NavigationDirection.IN (some cur))
        s.navigationLoops with
    | none => none
    | some (inNode, s1) =>
      match getNextNode w fuel s1 (some cur)
          (getValidationFunction w fuel NavigationDirection.NEXT (some cur))
          s1.navigationLoops with
      | none => none
      | some (nextNode, s2) => some (inNode == nextNode, s2)

/-- Embeds `LineCursor.preDelete`: record the recovery candidates, in priority
order, in `potentialNodes`. -/
def preDelete (w : World) (s : Cursor) (deletedBlock : Nat) : Cursor :=
  let nodes : List Nat :=
    match s.focused with
    | some c => [c]
    | none => []
  let parentConnection : Option Nat :=
    ((w.prevConn deletedBlock).bind w.targetConnection).orElse
      (fun _ => (w.outputConn deletedBlock).bind w.targetConnection)
  let nodes := nodes ++ parentConnection.toList
  let nodes := nodes ++ (getNextBlock w deletedBlock).toList
  let nodes := nodes ++ (w.blockParent deletedBlock).toList
  let nodes := nodes ++ [w.ws]
  { s with potentialNodes := some nodes }

/-- The two invariant violations `postDelete` can raise. -/
inductive PostDeleteError
  | mustCallPreDeleteFirst
  | noValidNodes
deriving DecidableEq, Repr

/-- Embeds `LineCursor.postDelete`: consume `potentialNodes` and focus the first
candidate whose owning block (if any) is not disposed; raise an error when
there is no pending list or no candidate survives. -/
def postDelete (w : World) (s : Cursor) : Except PostDeleteError Cursor :=
  let nodes := s.potentialNodes
  let s1 : Cursor := { s with potentialNodes := none }
  match nodes with
  | none => Except.error PostDeleteError.mustCallPreDeleteFirst
  | some ns =>
    match ns.find? (fun n => !((getSourceBlockFromNode w n).any w.disposed)) with
    | some n => Except.ok (setCurNode s1 n)
    | none => Except.error PostDeleteError.noValidNodes

/-- The workspace flags consulted by the shortcut preconditions. -/
structure WsState where
  readOnly : Bool
  dragging : Bool
  ephemeralFocusTaken : Bool
deriving DecidableEq, Repr

/-- Capability profile of a focused node, as probed by the shortcut module:
which capability interfaces it implements, whether it exposes its own
`isCopyable` method (and what that returns), whether it is one of the two
classes Blockly knows (`BlockSvg` / `RenderedWorkspaceComment`), and the
results of its capability methods. -/
structure FocusedNode where
  implementsCopyable : Bool
  implementsDeletable : Bool
  implementsDraggable : Bool
  hasIsCopyableMethod : Bool
  isCopyableResult : Bool
  isBlockOrComment : Bool
  isOwnDeletable : Bool
  isOwnMovable : Bool
  isDeletable : Bool
  isMovable : Bool
deriving DecidableEq, Repr

/-- Embeds `isCopyable` from the shortcut module: interface checks first, then the
node's own `isCopyable` method if it has one, then the class-specific
own-deletable/own-movable checks, then the strict fallback. -/
def isCopyable (f : FocusedNode) : Bool :=
  if !f.implementsCopyable || !f.implementsDeletable || !f.implementsDraggable then false
  else if f.hasIsCopyableMethod then f.isCopyableResult
  else if f.isBlockOrComment then f.isOwnDeletable && f.isOwnMovable
  else f.isDeletable && f.isMovable

/-- Embeds `isCuttable` from the shortcut module. -/
def isCuttable (f : FocusedNode) : Bool :=
  isCopyable f && f.implementsDeletable && f.isDeletable

/-- The Cut shortcut's `preconditionFn`. -/
def cutPreconditionFn (ws : WsState) (focused : Option FocusedNode) : Bool :=
  focused.isSome && !ws.readOnly && !ws.dragging && !ws.ephemeralFocusTaken &&
    (match focused with
     | some f => isCuttable f
     | none => false)

/-- A world in which every query is empty: a single unconnected node.  Used
to instantiate hypotheses of the universally quantified theorems. -/
def wTiny : World where
  kind := fun _ => NodeKind.block
  firstChild := fun _ => none
  nextSibling := fun _ => none
  prevSibling := fun _ => none
  navParent := fun _ => none
  ws := 99
  outputConn := fun _ => none
  prevConn := fun _ => none
  nextConn := fun _ => none
  targetConnection := fun _ => none
  sourceBlock := fun _ => 0
  parentInput := fun _ => none
  inputOwner := fun _ => 0
  inputList := fun _ => []
  statementInputCount := fun _ => 0
  inputsInline := fun _ => false
  blockParent := fun _ => none
  disposed := fun _ => false

/-- A malformed world with a single self-parented node `0` and no siblings:
the parent-climbing loop of `getNextNodeImpl` never exits on it. -/
def wCyc : World where
  kind := fun _ => NodeKind.block
  firstChild := fun _ => none
  nextSibling := fun _ => none
  prevSibling := fun _ => none
  navParent := fun _ => some 0
  ws := 99
  outputConn := fun _ => none
  prevConn := fun _ => none
  nextConn := fun _ => none
  targetConnection := fun _ => none
  sourceBlock := fun _ => 0
  parentInput := fun _ => none
  inputOwner := fun _ => 0
  inputList := fun _ => []
  statementInputCount := fun _ => 0
  inputsInline := fun _ => false
  blockParent := fun _ => none
  disposed := fun _ => false

/-- A three-block stack `A → B → C` (blocks `1, 2, 3`), connected through
`A.nextConnection = 10`, `B.previousConnection = 11`, `B.nextConnection = 12`,
`C.previousConnection = 13`; the workspace root is node `99`.  The flag
selects whether block `B` has already been disposed. -/
def stackWorld (bDisposed : Bool) : World where
  kind := fun n =>
    if n = 1 ∨ n = 2 ∨ n = 3 then NodeKind.block
    else if n = 10 ∨ n = 12 then NodeKind.connection ConnType.nextStatement
    else if n = 11 ∨ n = 13 then NodeKind.connection ConnType.previousStatement
    else if n = 99 then NodeKind.workspace
    else NodeKind.other
  firstChild := fun _ => none
  nextSibling := fun _ => none
  prevSibling := fun _ => none
  navParent := fun _ => none
  ws := 99
  outputConn := fun _ => none
  prevConn := fun n => if n = 2 then some 11 else if n = 3 then some 13 else none
  nextConn := fun n => if n = 1 then some 10 else if n = 2 then some 12 else none
  targetConnection := fun n =>
    if n = 10 then some 11 else if n = 11 then some 10
    else if n = 12 then some 13 else if n = 13 then some 12 else none
  sourceBlock := fun n =>
    if n = 10 then 1 else if n = 11 then 2 else if n = 12 then 2
    else if n = 13 then 3 else 0
  parentInput := fun _ => none
  inputOwner := fun _ => 0
  inputList := fun _ => []
  statementInputCount := fun _ => 0
  inputsInline := fun _ => false
  blockParent := fun n => if n = 2 then some 1 else if n = 3 then some 2 else none
  disposed := fun n => bDisposed && n == 2

/-- A block `1` that renders its inputs inline, holding sub-block `2`:
block `2`'s output connection `20` is plugged into block `1`'s input-value
connection `21` on input `30`. -/
def wInline : World where
  kind := fun n =>
    if n = 1 ∨ n = 2 then NodeKind.block
    else if n = 20 then NodeKind.connection ConnType.outputValue
    else if n = 21 then NodeKind.connection ConnType.inputValue
    else if n = 99 then NodeKind.workspace
    else NodeKind.other
  firstChild := fun _ => none
  nextSibling := fun _ => none
  prevSibling := fun _ => none
  navParent := fun _ => none
  ws := 99
  outputConn := fun n => if n = 2 then some 20 else none
  prevConn := fun _ => none
  nextConn := fun _ => none
  targetConnection := fun n =>
    if n = 20 then some 21 else if n = 21 then some 20 else none
  sourceBlock := fun n => if n = 20 then 2 else if n = 21 then 1 else 0
  parentInput := fun n => if n = 21 then some 30 else none
  inputOwner := fun n => if n = 30 then 1 else 0
  inputList := fun n => if n = 1 then [30] else []
  statementInputCount := fun n => if n = 1 then 1 else 0
  inputsInline := fun n => n == 1
  blockParent := fun n => if n = 2 then some 1 else none
  disposed := fun _ => false

/-! ### State-restoration helpers -/

theorem getPreviousNode_state {w : World} {fuel : Nat} {s : Cursor} {node : Option Nat}
    {isValid : Option Nat → Bool} {loop : Bool} {r : Option Nat} {s' : Cursor}
    (h : getPreviousNode w fuel s node isValid loop = some (r, s')) : s' = s := by
  unfold getPreviousNode at h
  cases node with
  | none =>
    cases h
    rfl
  | some x =>
    dsimp only at h
    rcases hb : (!loop && getFirstNode w == some x) with _ | _
    · rw [hb] at h
      simp only [Bool.false_eq_true, if_false] at h
      cases hi : getPreviousNodeImpl w isValid fuel fuel (some x) ∅ with
      | none => rw [hi] at h; exact Option.noConfusion h
      | some v => rw [hi] at h; cases h; rfl
    · rw [hb] at h
      simp only [if_true] at h
      cases h
      rfl

theorem getLastNode_state {w : World} {fuel : Nat} {s : Cursor}
    {r : Option Nat} {s' : Cursor}
    (h : getLastNode w fuel s = some (r, s')) : s' = s :=
  getPreviousNode_state h

theorem getNextNode_state {w : World} {fuel : Nat} {s : Cursor} {node : Option Nat}
    {isValid : Option Nat → Bool} {loop : Bool} {r : Option Nat} {s' : Cursor}
    (h : getNextNode w fuel s node isValid loop = some (r, s')) : s' = s := by
  unfold getNextNode at h
  cases node with
  | none =>
    cases h
    rfl
  | some x =>
    dsimp only at h
    cases loop with
    | true =>
      simp only [if_true] at h
      cases hi : getNextNodeImpl w isValid fuel fuel (some x) ∅ with
      | none => rw [hi] at h; exact Option.noConfusion h
      | some v => rw [hi] at h; cases h; rfl
    | false =>
      simp only [Bool.false_eq_true, if_false] at h
      cases hlast : getLastNode w fuel { s with navigationLoops := false } with
      | none => rw [hlast] at h; exact Option.noConfusion h
      | some p =>
        obtain ⟨last, s2⟩ := p
        have hs2 : s2 = { s with navigationLoops := false } := getLastNode_state hlast
        rw [hlast] at h
        dsimp only at h
        rcases hb : (last == some x) with _ | _
        · rw [hb] at h
          simp only [Bool.false_eq_true, if_false] at h
          cases hi : getNextNodeImpl w isValid fuel fuel (some x) ∅ with
          | none => rw [hi] at h; exact Option.noConfusion h
          | some v => rw [hi] at h; cases h; rw [hs2]
        · rw [hb] at h
          simp only [if_true] at h
          cases h
          rw [hs2]

/-- C1: `preDelete` records, in priority order, the current position, the
connection the deleted block hung from (previous- or output-side), the
block on its next connection, its parent block, and the workspace root;
`postDelete` focuses the first recorded candidate whose owning block is not
disposed.  For the stack `A → B → C` with the cursor on `B`, deleting `B`
moves the cursor to the connection on `A` that `B` was attached to. -/
theorem preDelete_postDelete_recovery :
    (∀ (w : World) (s : Cursor) (b : Nat),
      (preDelete w s b).potentialNodes =
        some (s.focused.toList ++
          (((w.prevConn b).bind w.targetConnection).orElse
            (fun _ => (w.outputConn b).bind w.targetConnection)).toList ++
          (getNextBlock w b).toList ++ (w.blockParent b).toList ++ [w.ws])) ∧
    (∀ (w : World) (s : Cursor) (ns : List Nat) (n : Nat),
      s.potentialNodes = some ns →
      ns.find? (fun m => !((getSourceBlockFromNode w m).any w.disposed)) = some n →
      postDelete w s = Except.ok { s with potentialNodes := none, focused := some n }) ∧
    (preDelete (stackWorld false) ⟨some 2, true, none⟩ 2).potentialNodes =
      some [2, 10, 3, 1, 99] ∧
    postDelete (stackWorld true) (preDelete (stackWorld false) ⟨some 2, true, none⟩ 2) =
      Except.ok ⟨some 10, true, none⟩ := by
  refine ⟨fun w s b => ?_, fun w s ns n hpn hfind => ?_, by decide, by rfl⟩
  · obtain ⟨f, nl, pn⟩ := s
    cases f <;> rfl
  · unfold postDelete
    rw [hpn]
    dsimp only
    rw [hfind]
    rfl

/-- Witness for the first-surviving-candidate rule of
`preDelete_postDelete_recovery`. -/
theorem preDelete_postDelete_recovery_witness :
    postDelete (stackWorld true) ⟨some 2, true, some [2, 10, 3, 1, 99]⟩ =
      Except.ok ⟨some 10, true, none⟩ :=
  preDelete_postDelete_recovery.2.1 (stackWorld true)
    ⟨some 2, true, some [2, 10, 3, 1, 99]⟩ [2, 10, 3, 1, 99] 10 rfl (by decide)

/-- C5: `getLastNode` is exactly one backward traversal step with looping
enabled from `getFirstNode`, under the always-true predicate. -/
theorem getLastNode_is_loop_step_back (w : World) (fuel : Nat) (s : Cursor) :
    getLastNode w fuel s =
      getPreviousNode w fuel s (getFirstNode w) (fun _ => true) true := rfl

/-- C9: the Cut shortcut is never admitted when the focused node fails the
deletable check, whatever the workspace flags and other capabilities are. -/
theorem cut_requires_deletable (ws : WsState) (f : FocusedNode)
    (h : f.implementsDeletable = false ∨ f.isDeletable = false) :
    cutPreconditionFn ws (some f) = false := by
  rcases h with h | h <;> simp [cutPreconditionFn, isCuttable, h]

/-- Witness for `cut_requires_deletable`. -/
theorem cut_requires_deletable_witness :
    cutPreconditionFn ⟨false, false, false⟩
      (some ⟨true, false, true, false, false, true, true, true, false, true⟩) = false :=
  cut_requires_deletable ⟨false, false, false⟩
    ⟨true, false, true, false, false, true, true, true, false, true⟩ (Or.inl rfl)

/-- C10: `getNextNode` and `getPreviousNode` restore the saved
`navigationLoops` value before returning, so the per-call `loop` argument
never has a lasting effect on the cursor's loop-mode default. -/
theorem loop_flag_restored (w : World) (fuel : Nat) (s : Cursor) (node : Option Nat)
    (isValid : Option Nat → Bool) (loop : Bool) (r : Option Nat) (s' : Cursor) :
    (getNextNode w fuel s node isValid loop = some (r, s') →
      s'.navigationLoops = s.navigationLoops) ∧
    (getPreviousNode w fuel s node isValid loop = some (r, s') →
      s'.navigationLoops = s.navigationLoops) :=
  ⟨fun h => by rw [getNextNode_state h], fun h => by rw [getPreviousNode_state h]⟩

/-- Witness for `loop_flag_restored`: a looping forward call and a
non-looping backward call on a concrete world, both leaving the cursor's
flag as it was. -/
theorem loop_flag_restored_witness :
    (⟨some 1, false, none⟩ : Cursor).navigationLoops =
      (⟨some 1, false, none⟩ : Cursor).navigationLoops ∧
    (⟨some 1, true, none⟩ : Cursor).navigationLoops =
      (⟨some 1, true, none⟩ : Cursor).navigationLoops :=
  ⟨(loop_flag_restored wTiny 1 ⟨some 1, false, none⟩ (some 1) (fun _ => true) true
      none ⟨some 1, false, none⟩).1 (by decide),
   (loop_flag_restored wTiny 1 ⟨some 1, true, none⟩ (some 1) (fun _ => true) false
      none ⟨some 1, true, none⟩).2 (by decide)⟩

/-- C6: `next()`, `prev()`, `in()` and `out()` update the current position
only when the traversal yields a node: with no current node, or with a null
traversal result, they return null and leave the position untouched. -/
theorem moves_never_clear_position (w : World) (fuel : Nat) (s : Cursor) :
    (s.focused = none →
      cursorNext w fuel s = some (none, s) ∧ cursorPrev w fuel s = some (none, s) ∧
      cursorIn w fuel s = some (none, s) ∧ cursorOut w fuel s = some (none, s)) ∧
    (∀ r s', cursorNext w fuel s = some (r, s') → r = none → s'.focused = s.focused) ∧
    (∀ r s', cursorPrev w fuel s = some (r, s') → r = none → s'.focused = s.focused) ∧
    (∀ r s', cursorIn w fuel s = some (r, s') → r = none → s'.focused = s.focused) ∧
    (∀ r s', cursorOut w fuel s = some (r, s') → r = none → s'.focused = s.focused) := by
  refine ⟨fun hf => ?_, fun r s' h hr => ?_, fun r s' h hr => ?_,
    fun r s' h hr => ?_, fun r s' h hr => ?_⟩
  · simp [cursorNext, cursorPrev, cursorIn, cursorOut, hf]
  · unfold cursorNext at h
    cases hf : s.focused with
    | none => rw [hf] at h; cases h; exact hf
    | some cur =>
      rw [hf] at h
      dsimp only at h
      cases hn : getNextNode w fuel s (some cur)
          (getValidationFunction w fuel NavigationDirection.NEXT (some cur))
          s.navigationLoops with
      | none => rw [hn] at h; exact Option.noConfusion h
      | some p =>
        obtain ⟨newNode, s1⟩ := p
        rw [hn] at h
        cases newNode with
        | some nn => cases h; exact absurd hr (by simp)
        | none => cases h; rw [getNextNode_state hn]; exact hf
  · unfold cursorPrev at h
    cases hf : s.focused with
    | none => rw [hf] at h; cases h; exact hf
    | some cur =>
      rw [hf] at h
      dsimp only at h
      cases hn : getPreviousNode w fuel s (some cur)
          (getValidationFunction w fuel NavigationDirection.PREVIOUS (some cur))
          s.navigationLoops with
      | none => rw [hn] at h; exact Option.noConfusion h
      | some p =>
        obtain ⟨newNode, s1⟩ := p
        rw [hn] at h
        cases newNode with
        | some nn => cases h; exact absurd hr (by simp)
        | none => cases h; rw [getPreviousNode_state hn]; exact hf
  · unfold cursorIn at h
    cases hf : s.focused with
    | none => rw [hf] at h; cases h; exact hf
    | some cur =>
      rw [hf] at h
      dsimp only at h
      cases hn : getNextNode w fuel s (some cur)
          (getValidationFunction w fuel NavigationDirection.IN (some cur))
          s.navigationLoops with
      | none => rw [hn] at h; exact Option.noConfusion h
      | some p =>
        obtain ⟨newNode, s1⟩ := p
        rw [hn] at h
        cases newNode with
        | some nn => cases h; exact absurd hr (by simp)
        | none => cases h; rw [getNextNode_state hn]; exact hf
  · unfold cursorOut at h
    cases hf : s.focused with
    | none => rw [hf] at h; cases h; exact hf
    | some cur =>
      rw [hf] at h
      dsimp only at h
      cases hn : getPreviousNode w fuel s (some cur)
          (getValidationFunction w fuel NavigationDirection.OUT (some cur))
          s.navigationLoops with
      | none => rw [hn] at h; exact Option.noConfusion h
      | some p =>
        obtain ⟨newNode, s1⟩ := p
        rw [hn] at h
        cases newNode with
        | some nn => cases h; exact absurd hr (by simp)
        | none => cases h; rw [getPreviousNode_state hn]; exact hf

/-- Witness for `moves_never_clear_position`: on a one-block world every
move fails and the focused node stays put. -/
theorem moves_never_clear_position_witness :
    (⟨some 1, true, none⟩ : Cursor).focused = (⟨some 1, true, none⟩ : Cursor).focused ∧
    (⟨some 1, true, none⟩ : Cursor).focused = (⟨some 1, true, none⟩ : Cursor).focused :=
  ⟨(moves_never_clear_position wTiny 3 ⟨some 1, true, none⟩).2.1 none
      ⟨some 1, true, none⟩ (by decide) rfl,
   (moves_never_clear_position wTiny 3 ⟨some 1, true, none⟩).2.2.1 none
      ⟨some 1, true, none⟩ (by decide) rfl⟩

/-- C4: `atEndOfLine()` answers whether the node reached under the IN
predicate coincides with the node reached under the NEXT predicate from the
same current node; it is false exactly when the two results differ,
including when only one of them is null. -/
theorem atEndOfLine_iff_in_eq_next (w : World) (fuel : Nat) (s : Cursor) (cur : Nat)
    (inR : Option Nat) (s1 : Cursor) (nextR : Option Nat) (s2 : Cursor)
    (b : Bool) (s3 : Cursor)
    (hf : s.focused = some cur)
    (hin : getNextNode w fuel s (some cur)
      (getValidationFunction w fuel NavigationDirection.IN (some cur))
      s.navigationLoops = some (inR, s1))
    (hnext : getNextNode w fuel s1 (some cur)
      (getValidationFunction w fuel NavigationDirection.NEXT (some cur))
      s1.navigationLoops = some (nextR, s2))
    (hend : atEndOfLine w fuel s = some (b, s3)) :
    b = true ↔ inR = nextR := by
  unfold atEndOfLine at hend
  rw [hf] at hend
  dsimp only at hend
  rw [hin] at hend
  dsimp only at hend
  rw [hnext] at hend
  cases hend
  exact beq_iff_eq

/-- Witness for `atEndOfLine_iff_in_eq_next`: on a one-block world both
probes come back null, and `atEndOfLine` answers true. -/
theorem atEndOfLine_iff_in_eq_next_witness :
    true = true ↔ (none : Option Nat) = none :=
  atEndOfLine_iff_in_eq_next wTiny 3 ⟨some 1, true, none⟩ 1 none ⟨some 1, true, none⟩
    none ⟨some 1, true, none⟩ true ⟨some 1, true, none⟩ rfl (by decide) (by decide)
    (by decide)

/-- C2: for the NEXT and PREVIOUS directions the validation function admits
every candidate that is a statement-level block (output connection not
attached to a parent), a workspace comment, a next-statement connection, or
an input-value connection on a block with statement inputs whose parent
input is not the block's first input. -/
theorem valid_candidates_admitted (w : World) (fuel : Nat) (direction : NavigationDirection)
    (curNode : Option Nat) (c : Nat)
    (hdir : direction = NavigationDirection.NEXT ∨ direction = NavigationDirection.PREVIOUS)
    (hc : (w.kind c = NodeKind.block ∧ outputTargetBlock w c = none) ∨
      w.kind c = NodeKind.comment ∨
      w.kind c = NodeKind.connection ConnType.nextStatement ∨
      (w.kind c = NodeKind.connection ConnType.inputValue ∧
        w.statementInputCount (w.sourceBlock c) ≠ 0 ∧
        strictSame ((w.inputList (w.sourceBlock c)).head?) (w.parentInput c) = false)) :
    getValidationFunction w fuel direction curNode (some c) = true := by
  have hg : ((decide (w.kind c = NodeKind.block) && (outputTargetBlock w c).isNone) ||
      decide (w.kind c = NodeKind.comment) ||
      decide (w.kind c = NodeKind.connection ConnType.nextStatement) ||
      (decide (w.kind c = NodeKind.connection ConnType.inputValue) &&
        !(w.statementInputCount (w.sourceBlock c) == 0) &&
        !strictSame ((w.inputList (w.sourceBlock c)).head?) (w.parentInput c))) = true := by
    rcases hc with ⟨h1, h2⟩ | h1 | h1 | ⟨h1, h2, h3⟩
    · simp [h1, h2]
    · simp [h1]
    · simp [h1]
    · simp [h1, h2, h3, Nat.beq_eq_true_eq]
  rcases hdir with rfl | rfl <;>
    · unfold getValidationFunction
      dsimp only
      rw [hg]
      simp

/-- Witness for `valid_candidates_admitted`: the next-statement connection
`10` of the stack world is admissible when navigating NEXT. -/
theorem valid_candidates_admitted_witness :
    getValidationFunction (stackWorld false) 5 NavigationDirection.NEXT none (some 10) = true :=
  valid_candidates_admitted (stackWorld false) 5 NavigationDirection.NEXT none 10
    (Or.inl rfl) (Or.inr (Or.inr (Or.inl (by decide))))

/-- A backward traversal only ever returns a node the predicate admits. -/
theorem getPreviousNodeImpl_valid (w : World) (isValid : Option Nat → Bool) (lf : Nat) :
    ∀ (rf : Nat) (node : Option Nat) (visited : Finset Nat) (r : Nat),
      getPreviousNodeImpl w isValid lf rf node visited = some (some r) →
      isValid (some r) = true := by
  intro rf
  induction rf with
  | zero =>
    intro node visited r h
    cases node <;> simp [getPreviousNodeImpl] at h
  | succ rf ih =>
    intro node visited r h
    cases node with
    | none => simp [getPreviousNodeImpl] at h
    | some n =>
      unfold getPreviousNodeImpl at h
      split at h
      · simp at h
      · dsimp only at h
        split at h
        · exact Option.noConfusion h
        · rename_i newNode heq
          cases newNode with
          | some x =>
            dsimp only at h
            split at h
            · rename_i hval
              obtain rfl : x = r := by simpa using h
              exact hval
            · exact ih _ _ _ h
          | none =>
            dsimp only at h
            cases hnp : w.navParent n with
            | some nn =>
              rw [hnp] at h
              split at h
              · rename_i hval
                obtain rfl : nn = r := by simpa using h
                exact hval
              · exact ih _ _ _ h
            | none =>
              rw [hnp] at h
              split at h
              · simp at h
              · simp at h

/-- C3: under the PREVIOUS direction, a block candidate plugged by its
output connection into a parent that renders its inputs inline is rejected
by the validation function, and the backward traversal therefore never
stops on it. -/
theorem inline_child_rejected_on_previous (w : World) (fuel : Nat) (curNode : Option Nat)
    (c p : Nat)
    (hk : w.kind c = NodeKind.block)
    (ht : outputTargetBlock w c = some p)
    (hi : w.inputsInline p = true) :
    getValidationFunction w fuel NavigationDirection.PREVIOUS curNode (some c) = false ∧
    ∀ (rf : Nat) (node : Option Nat) (visited : Finset Nat),
      getPreviousNodeImpl w
        (getValidationFunction w fuel NavigationDirection.PREVIOUS curNode) fuel rf
        node visited ≠ some (some c) := by
  have hfalse :
      getValidationFunction w fuel NavigationDirection.PREVIOUS curNode (some c) = false := by
    unfold getValidationFunction
    dsimp only
    have hg : ((decide (w.kind c = NodeKind.block) && (outputTargetBlock w c).isNone) ||
        decide (w.kind c = NodeKind.comment) ||
        decide (w.kind c = NodeKind.connection ConnType.nextStatement) ||
        (decide (w.kind c = NodeKind.connection ConnType.inputValue) &&
          !(w.statementInputCount (w.sourceBlock c) == 0) &&
          !strictSame ((w.inputList (w.sourceBlock c)).head?) (w.parentInput c))) = false := by
      simp [hk, ht]
    rw [hg]
    simp only [Bool.false_eq_true, if_false]
    split
    · rfl
    · cases hcb : curNode.bind (getSourceBlockFromNode w) with
      | none => rfl
      | some cb =>
        dsimp only
        simp [hk, ht, hi]
  refine ⟨hfalse, fun rf node visited h => ?_⟩
  have := getPreviousNodeImpl_valid w
    (getValidationFunction w fuel NavigationDirection.PREVIOUS curNode) fuel rf
    node visited c h
  rw [hfalse] at this
  exact Bool.noConfusion this

/-- Witness for `inline_child_rejected_on_previous`: sub-block `2` of the
inline-input block `1` is never a PREVIOUS stop. -/
theorem inline_child_rejected_on_previous_witness :
    getValidationFunction wInline 5 NavigationDirection.PREVIOUS (some 1) (some 2) = false :=
  (inline_child_rejected_on_previous wInline 5 (some 1) 2 1 rfl rfl rfl).1

/-- C8: `postDelete` raises an error exactly when no pending candidate list
exists (no preceding `preDelete`) or when every captured candidate's owning
block is disposed; otherwise it focuses the first surviving candidate and
returns normally. -/
theorem postDelete_error_conditions (w : World) (s : Cursor) :
    ((∃ e, postDelete w s = Except.error e) ↔
      (s.potentialNodes = none ∨
        ∃ ns, s.potentialNodes = some ns ∧
          ∀ n ∈ ns, (getSourceBlockFromNode w n).any w.disposed = true)) ∧
    (s.potentialNodes = none →
      postDelete w s = Except.error PostDeleteError.mustCallPreDeleteFirst) ∧
    (∀ ns, s.potentialNodes = some ns →
      (∀ n ∈ ns, (getSourceBlockFromNode w n).any w.disposed = true) →
      postDelete w s = Except.error PostDeleteError.noValidNodes) ∧
    (∀ ns n, s.potentialNodes = some ns →
      ns.find? (fun m => !((getSourceBlockFromNode w m).any w.disposed)) = some n →
      postDelete w s = Except.ok { s with potentialNodes := none, focused := some n }) := by
  obtain ⟨f, nl, pn⟩ := s
  cases pn with
  | none =>
    exact ⟨⟨fun _ => Or.inl rfl, fun _ => ⟨PostDeleteError.mustCallPreDeleteFirst, rfl⟩⟩,
      fun _ => rfl, fun ns hns => Option.noConfusion hns,
      fun ns n hns => Option.noConfusion hns⟩
  | some ns =>
    cases hfind : ns.find? (fun m => !((getSourceBlockFromNode w m).any w.disposed)) with
    | none =>
      have hdead : ∀ n ∈ ns, (getSourceBlockFromNode w n).any w.disposed = true := by
        intro n hn
        have := List.find?_eq_none.mp hfind n hn
        simpa using this
      have hpd : postDelete w ⟨f, nl, some ns⟩ = Except.error PostDeleteError.noValidNodes := by
        unfold postDelete
        dsimp only
        rw [hfind]
      refine ⟨⟨fun _ => Or.inr ⟨ns, rfl, hdead⟩, fun _ => ⟨_, hpd⟩⟩,
        fun hc => Option.noConfusion hc, fun ns2 hns2 _ => ?_, fun ns2 n hns2 hf2 => ?_⟩
      · cases hns2
        exact hpd
      · cases hns2
        rw [hfind] at hf2
        exact Option.noConfusion hf2
    | some n0 =>
      have hpd : postDelete w ⟨f, nl, some ns⟩ = Except.ok ⟨some n0, nl, none⟩ := by
        unfold postDelete
        dsimp only
        rw [hfind]
        rfl
      have halive : ¬ (∀ n ∈ ns, (getSourceBlockFromNode w n).any w.disposed = true) := by
        intro hdead
        have hnone : ns.find? (fun m => !((getSourceBlockFromNode w m).any w.disposed)) = none :=
          List.find?_eq_none.mpr (fun x hx => by simp [hdead x hx])
        rw [hfind] at hnone
        exact Option.noConfusion hnone
      refine ⟨⟨fun he => ?_, fun hc => ?_⟩,
        fun hc => Option.noConfusion hc, fun ns2 hns2 hdead2 => ?_, fun ns2 n hns2 hf2 => ?_⟩
      · obtain ⟨e, he⟩ := he
        rw [hpd] at he
        exact Except.noConfusion he
      · rcases hc with hc | ⟨ns2, hns2, hdead2⟩
        · exact Option.noConfusion hc
        · cases hns2
          exact absurd hdead2 halive
      · cases hns2
        exact absurd hdead2 halive
      · cases hns2
        rw [hfind] at hf2
        cases hf2
        exact hpd

/-- Witness for `postDelete_error_conditions`: the missing-`preDelete`
error, the all-candidates-disposed error, and a normal return. -/
theorem postDelete_error_conditions_witness :
    postDelete wTiny ⟨none, true, none⟩ =
      Except.error PostDeleteError.mustCallPreDeleteFirst ∧
    postDelete (stackWorld true) ⟨some 2, true, some [2, 12]⟩ =
      Except.error PostDeleteError.noValidNodes ∧
    postDelete (stackWorld true) ⟨some 2, true, some [2, 10]⟩ =
      Except.ok ⟨some 10, true, none⟩ :=
  ⟨(postDelete_error_conditions wTiny ⟨none, true, none⟩).2.1 rfl,
   (postDelete_error_conditions (stackWorld true) ⟨some 2, true, some [2, 12]⟩).2.2.1
     [2, 12] rfl (by decide),
   (postDelete_error_conditions (stackWorld true) ⟨some 2, true, some [2, 10]⟩).2.2.2
     [2, 10] 10 rfl (by decide)⟩

/-- A finite node universe closed under the navigator's accessors, written
with boolean option-checks so that closure is decidable on concrete worlds. -/
abbrev ClosedWorld (w : World) (S : Finset Nat) : Prop :=
  ∀ n ∈ S,
    (w.firstChild n).all (fun c => decide (c ∈ S)) = true ∧
    (w.nextSibling n).all (fun c => decide (c ∈ S)) = true ∧
    (w.prevSibling n).all (fun c => decide (c ∈ S)) = true ∧
    (w.navParent n).all (fun c => decide (c ∈ S)) = true

/-- Unpacking the boolean option-check of `ClosedWorld`. -/
theorem mem_of_optionAll {S : Finset Nat} {o : Option Nat} {c : Nat}
    (h : o.all (fun c => decide (c ∈ S)) = true) (hc : o = some c) : c ∈ S := by
  subst hc
  simpa using h

/-- The parent-climbing loop stays inside a closed universe. -/
theorem climbParents_mem (w : World) (S : Finset Nat) (hS : ClosedWorld w S) :
    ∀ (f t r : Nat), t ∈ S → climbParents w f t = some (some r) → r ∈ S := by
  intro f
  induction f with
  | zero => intro t r _ h; exact Option.noConfusion h
  | succ f ih =>
    intro t r ht h
    unfold climbParents at h
    cases hp : w.navParent t with
    | none => rw [hp] at h; simp at h
    | some p =>
      rw [hp] at h
      dsimp only at h
      have hpS : p ∈ S := mem_of_optionAll (hS t ht).2.2.2 hp
      cases hs : w.nextSibling p with
      | some sib =>
        rw [hs] at h
        obtain rfl : sib = r := by simpa using h
        exact mem_of_optionAll (hS p hpS).2.1 hs
      | none =>
        rw [hs] at h
        exact ih p r hpS h

/-- The sibling walk of `getRightMostChild` stays inside a closed universe. -/
theorem rightMostSiblings_mem (w : World) (S : Finset Nat) (hS : ClosedWorld w S)
    (stop : Nat) :
    ∀ (f c last : Nat), c ∈ S → rightMostSiblings w stop f c = some last → last ∈ S := by
  intro f
  induction f with
  | zero => intro c last _ h; exact Option.noConfusion h
  | succ f ih =>
    intro c last hc h
    unfold rightMostSiblings at h
    cases hs : w.nextSibling c with
    | none =>
      rw [hs] at h
      obtain rfl : c = last := by simpa using h
      exact hc
    | some sib =>
      rw [hs] at h
      dsimp only at h
      by_cases hst : sib = stop
      · rw [if_pos hst] at h
        obtain rfl : c = last := by simpa using h
        exact hc
      · rw [if_neg hst] at h
        exact ih sib last (mem_of_optionAll (hS c hc).2.1 hs) h

/-- Lemma that `getRightMostChild` stays inside a closed universe. -/
theorem getRightMostChild_mem (w : World) (S : Finset Nat) (hS : ClosedWorld w S)
    (stop sf : Nat) :
    ∀ (rf n r : Nat), n ∈ S → getRightMostChild w stop sf rf (some n) = some (some r) →
      r ∈ S := by
  intro rf
  induction rf with
  | zero => intro n r _ h; exact Option.noConfusion h
  | succ rf ih =>
    intro n r hn h
    unfold getRightMostChild at h
    cases hc : w.firstChild n with
    | none =>
      rw [hc] at h
      obtain rfl : n = r := by simpa using h
      exact hn
    | some c =>
      rw [hc] at h
      dsimp only at h
      by_cases hcs : c = stop
      · rw [if_pos hcs] at h
        obtain rfl : n = r := by simpa using h
        exact hn
      · rw [if_neg hcs] at h
        cases hw : rightMostSiblings w stop sf c with
        | none => rw [hw] at h; exact Option.noConfusion h
        | some last =>
          rw [hw] at h
          exact ih last r (rightMostSiblings_mem w S hS stop sf c last
            (mem_of_optionAll (hS n hn).1 hc) hw) h

/-- The visited set bounds the self-recursion of `getNextNodeImpl`: over a
closed universe, whenever the inner parent-climbing loop has enough fuel,
recursion fuel exceeding the number of yet-unvisited nodes suffices. -/
theorem getNextNodeImpl_ne_none (w : World) (S : Finset Nat) (hS : ClosedWorld w S)
    (isValid : Option Nat → Bool) (lf : Nat)
    (hclimb : ∀ t ∈ S, climbParents w lf t ≠ none) :
    ∀ (rf : Nat) (visited : Finset Nat) (n : Nat), n ∈ S → visited ⊆ S →
      S.card - visited.card < rf →
      getNextNodeImpl w isValid lf rf (some n) visited ≠ none := by
  intro rf
  induction rf with
  | zero => intro visited n _ _ hlt; exact absurd hlt (Nat.not_lt_zero _)
  | succ rf ih =>
    intro visited n hn hsub hlt h
    have hcard : ∀ hv : n ∉ visited, S.card - (insert n visited).card < rf := by
      intro hv
      have h1 : visited.card < S.card :=
        Finset.card_lt_card ⟨hsub, fun hST => hv (hST hn)⟩
      rw [Finset.card_insert_of_not_mem hv]
      omega
    unfold getNextNodeImpl at h
    by_cases hv : n ∈ visited
    · rw [if_pos hv] at h
      exact Option.noConfusion h
    · rw [if_neg hv] at h
      dsimp only at h
      cases hc : w.firstChild n with
      | some c =>
        rw [hc] at h
        dsimp only at h
        split at h
        · exact Option.noConfusion h
        · exact ih (insert n visited) c (mem_of_optionAll (hS n hn).1 hc)
            (Finset.insert_subset hn hsub) (hcard hv) h
      | none =>
        rw [hc] at h
        cases hs : w.nextSibling n with
        | some sib =>
          rw [hs] at h
          dsimp only at h
          split at h
          · exact Option.noConfusion h
          · exact ih (insert n visited) sib (mem_of_optionAll (hS n hn).2.1 hs)
              (Finset.insert_subset hn hsub) (hcard hv) h
        | none =>
          rw [hs] at h
          cases hcl : climbParents w lf n with
          | none => exact hclimb n hn hcl
          | some r =>
            rw [hcl] at h
            dsimp only at h
            cases r with
            | some nn =>
              split at h
              · exact Option.noConfusion h
              · exact ih (insert n visited) nn
                  (climbParents_mem w S hS lf n nn hn hcl)
                  (Finset.insert_subset hn hsub) (hcard hv) h
            | none =>
              split at h
              · exact Option.noConfusion h
              · exact Option.noConfusion h

/-- The visited set likewise bounds the self-recursion of
`getPreviousNodeImpl`, whenever the rightmost-child computations succeed. -/
theorem getPreviousNodeImpl_ne_none (w : World) (S : Finset Nat) (hS : ClosedWorld w S)
    (isValid : Option Nat → Bool) (lf : Nat)
    (hrmc : ∀ t ∈ S, ∀ p, w.prevSibling t = some p →
      getRightMostChild w t lf lf (some p) ≠ none) :
    ∀ (rf : Nat) (visited : Finset Nat) (n : Nat), n ∈ S → visited ⊆ S →
      S.card - visited.card < rf →
      getPreviousNodeImpl w isValid lf rf (some n) visited ≠ none := by
  intro rf
  induction rf with
  | zero => intro visited n _ _ hlt; exact absurd hlt (Nat.not_lt_zero _)
  | succ rf ih =>
    intro visited n hn hsub hlt h
    have hcard : ∀ hv : n ∉ visited, S.card - (insert n visited).card < rf := by
      intro hv
      have h1 : visited.card < S.card :=
        Finset.card_lt_card ⟨hsub, fun hST => hv (hST hn)⟩
      rw [Finset.card_insert_of_not_mem hv]
      omega
    unfold getPreviousNodeImpl at h
    by_cases hv : n ∈ visited
    · rw [if_pos hv] at h
      exact Option.noConfusion h
    · rw [if_neg hv] at h
      dsimp only at h
      cases hps : w.prevSibling n with
      | none =>
        rw [hps] at h
        dsimp only at h
        cases hp : w.navParent n with
        | some pp =>
          rw [hp] at h
          split at h
          · exact Option.noConfusion h
          · exact ih (insert n visited) pp (mem_of_optionAll (hS n hn).2.2.2 hp)
              (Finset.insert_subset hn hsub) (hcard hv) h
        | none =>
          rw [hp] at h
          split at h
          · exact Option.noConfusion h
          · exact Option.noConfusion h
      | some p =>
        rw [hps] at h
        dsimp only at h
        have hpS : p ∈ S := mem_of_optionAll (hS n hn).2.2.1 hps
        cases hr : getRightMostChild w n lf lf (some p) with
        | none => exact hrmc n hn p hps hr
        | some r =>
          rw [hr] at h
          dsimp only at h
          cases r with
          | some x =>
            split at h
            · exact Option.noConfusion h
            · exact ih (insert n visited) x
                (getRightMostChild_mem w S hS n lf lf p x hpS hr)
                (Finset.insert_subset hn hsub) (hcard hv) h
          | none =>
            cases hp : w.navParent n with
            | some pp =>
              rw [hp] at h
              split at h
              · exact Option.noConfusion h
              · exact ih (insert n visited) pp (mem_of_optionAll (hS n hn).2.2.2 hp)
                  (Finset.insert_subset hn hsub) (hcard hv) h
            | none =>
              rw [hp] at h
              split at h
              · exact Option.noConfusion h
              · exact Option.noConfusion h

/-- C7 (amended): the visited set bounds the self-recursion of
`getNextNodeImpl` and `getPreviousNodeImpl` — over a finite closed node
universe, once the unguarded inner loops (the parent climb, respectively
the rightmost-child descent) succeed, recursion fuel exceeding the number
of unvisited nodes suffices, so the guarded recursion cannot run forever.
The functions as a whole do **not** terminate on every cyclic graph; see
`cyclic_parent_hangs_forward`. -/
theorem traversal_recursion_bounded :
    (∀ (w : World) (S : Finset Nat), ClosedWorld w S →
      ∀ (isValid : Option Nat → Bool) (lf : Nat),
        (∀ t ∈ S, climbParents w lf t ≠ none) →
        ∀ (rf : Nat) (visited : Finset Nat) (n : Nat), n ∈ S → visited ⊆ S →
          S.card - visited.card < rf →
          getNextNodeImpl w isValid lf rf (some n) visited ≠ none) ∧
    (∀ (w : World) (S : Finset Nat), ClosedWorld w S →
      ∀ (isValid : Option Nat → Bool) (lf : Nat),
        (∀ t ∈ S, ∀ p, w.prevSibling t = some p →
          getRightMostChild w t lf lf (some p) ≠ none) →
        ∀ (rf : Nat) (visited : Finset Nat) (n : Nat), n ∈ S → visited ⊆ S →
          S.card - visited.card < rf →
          getPreviousNodeImpl w isValid lf rf (some n) visited ≠ none) :=
  ⟨fun w S hS => getNextNodeImpl_ne_none w S hS,
   fun w S hS => getPreviousNodeImpl_ne_none w S hS⟩

/-- Witness for `traversal_recursion_bounded` on the one-node world. -/
theorem traversal_recursion_bounded_witness :
    getNextNodeImpl wTiny (fun _ => true) 1 2 (some 0) ∅ ≠ none ∧
    getPreviousNodeImpl wTiny (fun _ => true) 1 2 (some 0) ∅ ≠ none :=
  ⟨traversal_recursion_bounded.1 wTiny {0} (by decide) (fun _ => true) 1 (by decide)
      2 ∅ 0 (by decide) (by decide) (by decide),
   traversal_recursion_bounded.2 wTiny {0} (by decide) (fun _ => true) 1
      (fun t ht p hp => Option.noConfusion hp) 2 ∅ 0 (by decide) (by decide) (by decide)⟩

/-- A node with no first child, no next sibling and a stuck parent climb
sends `getNextNodeImpl` into its fuel-out branch at every recursion fuel. -/
theorem getNextNodeImpl_stuck (w : World) (isValid : Option Nat → Bool)
    (lf rf n : Nat) (visited : Finset Nat)
    (hfc : w.firstChild n = none) (hns : w.nextSibling n = none)
    (hcl : climbParents w lf n = none) (hnv : n ∉ visited) :
    getNextNodeImpl w isValid lf (rf + 1) (some n) visited = none := by
  unfold getNextNodeImpl
  rw [if_neg hnv, hfc, hns, hcl]

/-- The forward traversal diverges from node `n`: no amount of fuel, for
the inner parent-climbing loop or for the recursion, produces a result. -/
def forwardTraversalDiverges (w : World) (isValid : Option Nat → Bool) (n : Nat) : Prop :=
  ∀ (lf rf : Nat), getNextNodeImpl w isValid lf rf (some n) ∅ = none

/-- C7 (counterexample): on the malformed world whose node `0` is its own
parent and has no siblings, `getNextNodeImpl` hangs — the `while` loop that
climbs parents is not guarded by the visited set, so the implementation
does not terminate on every cyclic graph. -/
theorem cyclic_parent_hangs_forward : forwardTraversalDiverges wCyc (fun _ => true) 0 := by
  have hclimb : ∀ lf, climbParents wCyc lf 0 = none := by
    intro lf
    induction lf with
    | zero => rfl
    | succ lf ih =>
      unfold climbParents
      exact ih
  intro lf rf
  cases rf with
  | zero => rfl
  | succ rf =>
    exact getNextNodeImpl_stuck wCyc (fun _ => true) lf rf 0 ∅ rfl rfl (hclimb lf)
      (by simp)
